import Mathlib

/-!
Verification of `src/playtime/formula.py` (scikit-playtime).

Part 1 embeds the fitted `CrossPolyPipeline` (its `fit` split-mark
computation and its `transform`) over an explicit matrix model.
Part 2 embeds the `PlaytimePipeline` operator algebra (`+`, `*`, `|`)
over a Python-object model with explicit object identities, so that
sklearn's `clone` (a structural copy yielding fresh objects) is
distinguishable from placing an operand by reference.
-/

namespace Playtime

/-- Representation of a feature matrix: NumPy dense array, or a scipy
sparse format.  `CrossPolyPipeline.transform` converts any sparse input
to CSC via `csc_array(...)` and returns `hstack(...).tocsc()`. -/
inductive Rep where
  | dense : Rep
  | csc : Rep
  | csr : Rep
  | coo : Rep
deriving DecidableEq, Repr

/-- Whether a representation is sparse: models scipy's `issparse`. -/
def Rep.isSparse : Rep → Bool
  | .dense => false
  | _ => true

/-- A numeric matrix: row and column counts, representation, a dtype code
(NumPy dtypes are opaque tags here), and the entries as a total function
(entries outside the `rows × cols` range are irrelevant). -/
structure Mat where
  rows : Nat
  cols : Nat
  rep : Rep
  dtype : Nat
  entry : Nat → Nat → Int

/-- A half-open column range `[start, stop)`: models the Python `slice`
objects stored in `split_marks_`. -/
structure Slc where
  start : Nat
  stop : Nat
deriving DecidableEq, Repr

/-- `X[:, s]` for a slice `s`: the column block of `X` given by `s`. -/
def Mat.colSlice (X : Mat) (s : Slc) : Mat :=
  { rows := X.rows
    cols := s.stop - s.start
    rep := X.rep
    dtype := X.dtype
    entry := fun i j => X.entry i (s.start + j) }

/-- `X1 * X2[:, [x]]`: element-wise product of a block with a single
column, broadcast across the block's columns (NumPy / scipy-sparse-array
broadcasting semantics). -/
def bcastMul (A c : Mat) : Mat :=
  { rows := A.rows
    cols := A.cols
    rep := A.rep
    dtype := A.dtype
    entry := fun i j => A.entry i j * c.entry i 0 }

/-- Entry lookup in a horizontal concatenation of blocks. -/
def hentry : List Mat → Nat → Nat → Int
  | [], _, _ => 0
  | m :: ms, i, j => if j < m.cols then m.entry i j else hentry ms i (j - m.cols)

/-- `np.hstack(columns, dtype=dt)` / `scipy.sparse.hstack(columns, dtype=dt)`:
both raise on an empty list, hence `Option`.  The row count is taken from
the first block; the representation is supplied by the caller (`transform`
returns `.tocsc()` when the union output was sparse, dense otherwise). -/
def hstackM (dt : Nat) (rp : Rep) (ms : List Mat) : Option Mat :=
  match ms with
  | [] => none
  | m0 :: _ =>
    some { rows := m0.rows
           cols := (ms.map Mat.cols).sum
           rep := rp
           dtype := dt
           entry := fun i j => hentry ms i j }

/-- `itertools.combinations(l, 2)` in Python's enumeration order. -/
def combos2 : List α → List (α × α)
  | [] => []
  | x :: xs => xs.map (fun y => (x, y)) ++ combos2 xs

/-- `if issparse(X_tfm): X_tfm = csc_array(X_tfm)` — canonicalise a
sparse union output to CSC (entries unchanged) for uniform slicing. -/
def sparseCanon (X : Mat) : Mat :=
  if X.rep.isSparse then { X with rep := .csc } else X

/-- `CrossPolyPipeline.transform`, given the fitted split marks (slice
values of `split_marks_` in dict insertion order, i.e. fit order) and the
concatenated union output `X_tfm`.  Mirrors the source exactly: the
`for x in range(X2.shape[1])` loop is NOT nested inside the
`it.combinations` loop, so `X1`/`X2` hold the slices of the LAST pair when
it runs; with fewer than two marks `X1`/`X2` are never bound (`NameError`),
modelled as `none`.  `X1` is `X_tfm[:, split_marks_[name1]]`, `X2` is
`X_tfm[:, split_marks_[name2]]`, each appended column batch is
`X1 * X2[:, [x]]`, and the result is `hstack(columns, dtype=X_tfm.dtype)`
— `.tocsc()` sparse when the union output was sparse, dense otherwise. -/
def crossTransform (marks : List Slc) (X : Mat) : Option Mat :=
  ((combos2 marks).getLast?).bind (fun p =>
    hstackM (sparseCanon X).dtype (if X.rep.isSparse then Rep.csc else Rep.dense)
      ((List.range ((sparseCanon X).colSlice p.2).cols).map
        (fun x => bcastMul ((sparseCanon X).colSlice p.1)
          (((sparseCanon X).colSlice p.2).colSlice ⟨x, x + 1⟩))))

/-- `CrossPolyPipeline.fit`'s split-mark loop: from the named widths
(`tfm.transform(X[:2]).shape[1]` per member, in transformer-list order)
and the running `start`, produce the `split_marks_` assoc list and the
final accumulator (`shape_out_`). -/
def fitMarks : List (String × Nat) → Nat → List (String × Slc) × Nat
  | [], start => ([], start)
  | (n, w) :: rest, start =>
    let r := fitMarks rest (w + start)
    ((n, ⟨start, start + w⟩) :: r.1, r.2)

/-- The output width the spec's §4.2 formula claims: the sum over all
unordered pairs `i < j` of `w_i * w_j`. -/
def pairwiseWidth : List Nat → Nat
  | [] => 0
  | w :: ws => w * ws.sum + pairwiseWidth ws

/-- The slices `[start, stop)` of a mark list tile `[s, t)` contiguously:
each block starts where the previous one stopped. -/
def marksTile : List (String × Slc) → Nat → Nat → Prop
  | [], s, t => s = t
  | (_, sl) :: rest, s, t => sl.start = s ∧ marksTile rest sl.stop t

/-!
### Part 2: the `PlaytimePipeline` operator algebra

Python pipeline objects are modelled with an explicit object identity
(`id`) on every node, so that sklearn's `clone` — which builds a fresh,
structurally identical estimator — is distinguishable from placing the
very same object by reference.  Node kinds mirror the classes the source
dispatches on: `prim` (any leaf estimator, carrying its lowercased class
name and its output width), `union` (sklearn `FeatureUnion`, whose
`transformer_list` is a list of (name, estimator) pairs), `chain`
(sklearn `Pipeline`), and `cross` (`CrossPolyPipeline` wrapping its
`union_estimator`).
-/

mutual
inductive PNode where
  | prim (id : Nat) (kind : String) (width : Nat) : PNode
  | union (id : Nat) (ts : PList) : PNode
  | chain (id : Nat) (ts : PList) : PNode
  | cross (id : Nat) (u : PNode) : PNode
deriving DecidableEq

inductive PList where
  | nil : PList
  | cons (name : String) (p : PNode) (rest : PList) : PList
deriving DecidableEq
end

mutual
/-- Object identities occurring in a node's object graph. -/
def PNode.idsOf : PNode → List Nat
  | .prim i _ _ => [i]
  | .union i ts => i :: ts.idsOf
  | .chain i ts => i :: ts.idsOf
  | .cross i u => i :: u.idsOf

def PList.idsOf : PList → List Nat
  | .nil => []
  | .cons _ p rest => p.idsOf ++ rest.idsOf
end

mutual
/-- `sklearn.clone` as a re-identification: a structural copy whose every
object id is shifted by `k`.  When every id of the source is `< k`, the
copy's ids are all `≥ k` and hence denote fresh objects. -/
def PNode.shiftIds (k : Nat) : PNode → PNode
  | .prim i s w => .prim (i + k) s w
  | .union i ts => .union (i + k) (ts.shiftIds k)
  | .chain i ts => .chain (i + k) (ts.shiftIds k)
  | .cross i u => .cross (i + k) (u.shiftIds k)

def PList.shiftIds (k : Nat) : PList → PList
  | .nil => .nil
  | .cons n p rest => .cons n (p.shiftIds k) (rest.shiftIds k)
end

mutual
/-- The same object graph with every id erased: two nodes with equal
`eraseIds` are structurally identical estimators (what `clone` copies). -/
def PNode.eraseIds : PNode → PNode
  | .prim _ s w => .prim 0 s w
  | .union _ ts => .union 0 ts.eraseIds
  | .chain _ ts => .chain 0 ts.eraseIds
  | .cross _ u => .cross 0 u.eraseIds

def PList.eraseIds : PList → PList
  | .nil => .nil
  | .cons n p rest => .cons n p.eraseIds rest.eraseIds
end

mutual
/-- `transform(X).shape[1]` of each estimator, which is what
`CrossPolyPipeline.fit` probes per member: a leaf has its fixed width, a
`FeatureUnion` concatenates its members, a `Pipeline` outputs what its
last step outputs, and a fitted `CrossPolyPipeline` outputs (per the
un-nested loop in its `transform`) the product of its last two member
widths — with fewer than two members its `transform` raises, width 0
here. -/
def PNode.widthOf : PNode → Nat
  | .prim _ _ w => w
  | .union _ ts => ts.widths.sum
  | .chain _ ts => ts.widths.getLastD 0
  | .cross _ u =>
    match u with
    | .union _ ts =>
      match ts.widths.reverse with
      | b :: a :: _ => a * b
      | _ => 0
    | _ => 0

def PList.widths : PList → List Nat
  | .nil => []
  | .cons _ p rest => p.widthOf :: rest.widths
end

/-- The lowercased class name sklearn's `_name_estimators` derives a
member's name from. -/
def PNode.className : PNode → String
  | .prim _ k _ => k
  | .union _ _ => "featureunion"
  | .chain _ _ => "pipeline"
  | .cross _ _ => "crosspolypipeline"

def PList.toList : PList → List (String × PNode)
  | .nil => []
  | .cons n p rest => (n, p) :: rest.toList

def PList.ofList : List (String × PNode) → PList
  | [] => .nil
  | (n, p) :: rest => .cons n p (PList.ofList rest)

/-- sklearn `_name_estimators` deduplication: a name occurring once is
kept as is; the k-th occurrence (1-based, in order) of a duplicated name
gets the suffix `-k`. -/
def autoNames (names : List String) : List String :=
  names.enum.map (fun p =>
    if names.count p.2 ≤ 1 then p.2
    else p.2 ++ "-" ++ toString ((names.take (p.1 + 1)).count p.2))

/-- sklearn `_name_estimators`: pair each estimator with its derived
name. -/
def nameEstimators (es : List PNode) : List (String × PNode) :=
  (autoNames (es.map PNode.className)).zip es

/-- `make_union(*es)`: a fresh `FeatureUnion` object over the given
estimators (by reference), with auto-derived names. -/
def mkUnion (i : Nat) (es : List PNode) : PNode :=
  .union i (PList.ofList (nameEstimators es))

/-- `make_pipeline(*es)`: a fresh `Pipeline` object over the given steps
(by reference), with auto-derived names. -/
def mkChain (i : Nat) (es : List PNode) : PNode :=
  .chain i (PList.ofList (nameEstimators es))

/-- `isinstance(p, FeatureUnion)`. -/
def PNode.isUnion : PNode → Bool
  | .union _ _ => true
  | _ => false

/-- A `PlaytimePipeline` wrapper holding its `pipeline` attribute. -/
structure PlaytimePipeline where
  pipeline : PNode
deriving DecidableEq

/-- `clone(p)` issued when the id counter is `ctr`: under the invariant
that every live object id is `< ctr`, the copy's ids land in
`[ctr, 2*ctr)`, so the caller's next counter is `2*ctr`. -/
def cloneAt (ctr : Nat) (p : PNode) : PNode := p.shiftIds ctr

/-- `PlaytimePipeline.__add__`.  Dispatches on
`isinstance(self.pipeline, FeatureUnion)`: a left union contributes its
members by reference (names stripped, then re-derived by `make_union`)
with `clone(other.pipeline)` appended; otherwise
`make_union(self.pipeline, other.pipeline)` places BOTH operand
pipelines by reference — no clone is taken in that branch.  Returns the
new wrapper and the next fresh-id counter. -/
def pyAdd (a b : PlaytimePipeline) (ctr : Nat) : PlaytimePipeline × Nat :=
  match a.pipeline with
  | .union _ ts =>
    let olds := ts.toList.map (fun x => x.2)
    (⟨mkUnion (2 * ctr) (olds ++ [cloneAt ctr b.pipeline])⟩, 2 * ctr + 1)
  | _ => (⟨mkUnion ctr [a.pipeline, b.pipeline]⟩, ctr + 1)

/-- `isinstance(x, CrossPolyPipeline)` for an operand of `__mul__`:
operands are `PlaytimePipeline` instances and `PlaytimePipeline` does not
subclass `CrossPolyPipeline`, so the test is constantly false — the
source tests the wrapper itself, not its `.pipeline` attribute. -/
def isCrossPolyInstance (_ : PlaytimePipeline) : Bool := false

/-- `PlaytimePipeline.__mul__`.  The first branch builds
`CrossPolyPipeline((self + other).pipeline)` — a `FeatureUnion`, so the
constructor's `union_estimator.transformer_list` access succeeds.  The
second and third branches bind `unioned_feats` to a plain Python list,
whose missing `transformer_list` attribute would make the constructor
raise `AttributeError`; with no `else`, falling through all three leaves
`unioned_feats` unbound (`NameError`).  All failures are `none`. -/
def pyMul (a b : PlaytimePipeline) (ctr : Nat) : Option (PlaytimePipeline × Nat) :=
  if isCrossPolyInstance a = false ∧ isCrossPolyInstance b = false then
    let r := pyAdd a b ctr
    some (⟨.cross r.2 r.1.pipeline⟩, r.2 + 1)
  else if b.pipeline.isUnion then none
  else if (match a.pipeline with
           | .chain _ _ => true
           | .union _ _ => true
           | _ => false) then none
  else none

/-- `PlaytimePipeline.__or__`:
`make_pipeline(clone(self.pipeline), other)` — the left pipeline is
cloned, `other` is placed by reference. -/
def pyOr (a : PlaytimePipeline) (other : PNode) (ctr : Nat) : PlaytimePipeline × Nat :=
  (⟨mkChain (2 * ctr) [cloneAt ctr a.pipeline, other]⟩, 2 * ctr + 1)

/-- Every object id of `p` is below `n` (the fresh-id counter
invariant). -/
def idsBelow (p : PNode) (n : Nat) : Prop := ∀ i ∈ p.idsOf, i < n

instance (p : PNode) (n : Nat) : Decidable (idsBelow p n) :=
  List.decidableBAll _ _

/-- The object ids mutated by `fit` on a composite: fitting a
`FeatureUnion` fits every member in place, fitting a `Pipeline`
fit-transforms every step in place, and fitting a `CrossPolyPipeline`
fits its wrapped union — i.e. every object in the graph acquires fitted
state. -/
def fittedIds (p : PNode) : List Nat := p.idsOf

/-- The `transform(X[:2]).shape[1]` probe layout `CrossPolyPipeline.fit`
records for a union's transformer list: its split marks and `shape_out_`.
`none` if the node is not a `FeatureUnion`. -/
def splitLayout : PNode → Option (List (String × Slc) × Nat)
  | .union _ ts => some (fitMarks (ts.toList.map (fun x => (x.1, x.2.widthOf))) 0)
  | _ => none

/-!
### Claim theorems: the transform phase
-/

/-- The union output used in the C1 evaluation: three width-1 blocks over
one row, dense, all entries 1. -/
def X111 : Mat :=
  { rows := 1, cols := 3, rep := .dense, dtype := 0, entry := fun _ _ => 1 }

/-- The split marks fitted for three width-1 blocks. -/
def marks111 : List Slc := [⟨0, 1⟩, ⟨1, 2⟩, ⟨2, 3⟩]

/-- Placeholder matrix for extracting concrete transform outputs. -/
def matDefault : Mat :=
  { rows := 0, cols := 0, rep := .dense, dtype := 0, entry := fun _ _ => 0 }

/-- A sparse (CSR) union output over two width-1 blocks. -/
def X7 : Mat :=
  { rows := 2, cols := 2, rep := .csr, dtype := 5, entry := fun i j => (i : Int) + j }

/-- The fitted marks of the two blocks of `X7`. -/
def marks7 : List Slc := [⟨0, 1⟩, ⟨1, 2⟩]

/-- The transform output on `X7`. -/
def Y7 : Mat := (crossTransform marks7 X7).getD matDefault

/-- The `transformer_list` estimators of a `FeatureUnion` node. -/
def unionMembers : PNode → Option (List PNode)
  | .union _ ts => some (ts.toList.map (fun x => x.2))
  | _ => none

/-- The `transformer_list` of a `FeatureUnion` node, names included. -/
def unionNamed : PNode → Option (List (String × PNode))
  | .union _ ts => some ts.toList
  | _ => none

/-- The steps of a `Pipeline` node. -/
def chainSteps : PNode → Option (List PNode)
  | .chain _ ts => some (ts.toList.map (fun x => x.2))
  | _ => none

/-- The members of the union wrapped by the cross-product node a
successful `__mul__` returns. -/
def crossMembers : Option (PlaytimePipeline × Nat) → Option (List PNode)
  | some (p, _) =>
    match p.pipeline with
    | .cross _ (.union _ ts) => some (ts.toList.map (fun x => x.2))
    | _ => none
  | none => none

/-- The left operand of the C4 counterexample: a leaf pipeline. -/
def a4 : PlaytimePipeline := ⟨.prim 0 "selectcols" 1⟩

/-- The right operand of the C4 counterexample: already a union of two
named transformers. -/
def b4 : PlaytimePipeline :=
  ⟨.union 1 (PList.ofList
    [("splinetransformer", .prim 2 "splinetransformer" 2),
     ("onehotencoder", .prim 3 "onehotencoder" 3)])⟩

/-- The left operand of the C5 counterexample. -/
def a5 : PlaytimePipeline := ⟨.prim 0 "selectcols" 1⟩

/-- The right operand of the C5 counterexample. -/
def b5 : PlaytimePipeline := ⟨.prim 1 "onehotencoder" 3⟩

/-- The left operand of the C6 counterexample and witness. -/
def a6 : PlaytimePipeline := ⟨.prim 0 "functiontransformer" 5⟩

/-- The right operand of the C6 counterexample and witness. -/
def b6 : PlaytimePipeline := ⟨.prim 1 "selectcols" 2⟩

/-- The terminal estimator passed by reference in the C6 witness. -/
def est6 : PNode := .prim 2 "linearregression" 1

/-- The fit-time (name, probe width) rows of a member list, as
`CrossPolyPipeline.fit` would see them after `make_union` naming. -/
def layoutKW (es : List PNode) : List (String × Nat) :=
  (nameEstimators es).map (fun x => (x.1, x.2.widthOf))

/-- The first single transformer of the C9 witness. -/
def pa9 : PNode := .prim 0 "functiontransformer" 5

/-- The second single transformer of the C9 witness. -/
def pb9 : PNode := .prim 1 "selectcols" 2

/-- The third single transformer of the C9 witness. -/
def pc9 : PNode := .prim 2 "countvectorizer" 4

/-!
### Lemmas and claim theorems
-/

/-!
### Helper lemmas: the fit phase
-/

theorem fitMarks_snd (nws : List (String × Nat)) :
    ∀ s, (fitMarks nws s).2 = s + (nws.map Prod.snd).sum := by
  induction nws with
  | nil => intro s; simp [fitMarks]
  | cons p rest ih =>
    intro s
    obtain ⟨n, w⟩ := p
    simp only [fitMarks, List.map_cons, List.sum_cons, ih (w + s)]
    omega

theorem fitMarks_tile (nws : List (String × Nat)) :
    ∀ s, marksTile (fitMarks nws s).1 s (fitMarks nws s).2 := by
  induction nws with
  | nil => intro s; simp [fitMarks, marksTile]
  | cons p rest ih =>
    intro s
    obtain ⟨n, w⟩ := p
    refine ⟨rfl, ?_⟩
    have h := ih (w + s)
    simpa [fitMarks, Nat.add_comm w s] using h

theorem fitMarks_names (nws : List (String × Nat)) :
    ∀ s, (fitMarks nws s).1.map Prod.fst = nws.map Prod.fst := by
  induction nws with
  | nil => intro s; simp [fitMarks]
  | cons p rest ih =>
    intro s
    obtain ⟨n, w⟩ := p
    simp [fitMarks, ih (w + s)]

theorem fitMarks_widths (nws : List (String × Nat)) :
    ∀ s, (fitMarks nws s).1.map (fun p => p.2.stop - p.2.start) = nws.map Prod.snd := by
  induction nws with
  | nil => intro s; simp [fitMarks]
  | cons p rest ih =>
    intro s
    obtain ⟨n, w⟩ := p
    simp [fitMarks, ih (w + s)]

/-!
### Helper lemmas: pair enumeration in the transform phase
-/

theorem combos2_getLast_pair (pre : List α) (a b : α) :
    (combos2 (pre ++ [a, b])).getLast? = some (a, b) := by
  induction pre with
  | nil => rfl
  | cons x rest ih =>
    have hne : combos2 (rest ++ [a, b]) ≠ [] := by
      intro hc
      rw [hc] at ih
      simp at ih
    calc (combos2 (x :: (rest ++ [a, b]))).getLast?
        = ((rest ++ [a, b]).map (fun y => (x, y)) ++ combos2 (rest ++ [a, b])).getLast? := rfl
      _ = (combos2 (rest ++ [a, b])).getLast? := List.getLast?_append_of_ne_nil _ hne
      _ = some (a, b) := ih

/-- C1: the claim says that for a fitted cross-product transformer over
blocks of widths `w_1..w_n`, `transform(X)` has `Σ_{i<j} w_i * w_j`
columns.  The code contradicts it: with three width-1 blocks the claimed
width is `pairwiseWidth [1,1,1] = 3`, but `transform` produces exactly 1
column, because the per-pair column loop is not nested inside the
`it.combinations` pair loop and only the last pair survives.  The
`it.combinations` traversal together with the docstring's stated purpose
(multiplying features across the different sets) makes the claim the
evident intent and the indentation the slip. -/
theorem c1_pairwise_width_eval :
    (crossTransform marks111 X111).map Mat.cols = some 1
      ∧ pairwiseWidth [1, 1, 1] = 3 ∧ (1 : Nat) ≠ 3 :=
  ⟨rfl, rfl, by decide⟩

/-- C2: for a fitted cross-product transformer over at least three blocks
(`pre` nonempty gives `≥ 3`; the statement holds for any `pre`), the
output of `transform` is exactly what the transformer over only the last
two blocks would produce: the `for x in range(X2.shape[1])` loop runs
after the pair loop finished, with `X1`/`X2` bound to the slices of the
last enumerated pair — the last two names in fit order — so no earlier
pair contributes columns. -/
theorem c2_only_last_pair_survives (pre : List Slc) (s1 s2 : Slc) (X : Mat) :
    crossTransform (pre ++ [s1, s2]) X = crossTransform [s1, s2] X := by
  unfold crossTransform
  rw [combos2_getLast_pair pre s1 s2]
  rfl

/-- C3: the split marks recorded by `fit` tile `[0, shape_out_)` exactly:
the first block starts at 0, each block starts where the previous one
stopped, each block's extent is its transformer's probed width, the
recorded names are the transformer names in fit order, and `shape_out_`
is the sum of all widths.  (The probed widths are the `width` inputs
here; the claim's premise that probe widths equal full widths is what
makes them the real block widths.) -/
theorem c3_split_marks_tile (nws : List (String × Nat)) :
    marksTile (fitMarks nws 0).1 0 (fitMarks nws 0).2
      ∧ (fitMarks nws 0).2 = (nws.map Prod.snd).sum
      ∧ (fitMarks nws 0).1.map Prod.fst = nws.map Prod.fst
      ∧ (fitMarks nws 0).1.map (fun p => p.2.stop - p.2.start) = nws.map Prod.snd :=
  ⟨fitMarks_tile nws 0, by simpa using fitMarks_snd nws 0,
    fitMarks_names nws 0, fitMarks_widths nws 0⟩

@[simp] theorem sparseCanon_rows (X : Mat) : (sparseCanon X).rows = X.rows := by
  unfold sparseCanon; split <;> rfl

@[simp] theorem sparseCanon_dtype (X : Mat) : (sparseCanon X).dtype = X.dtype := by
  unfold sparseCanon; split <;> rfl

theorem hstackM_cons (dt : Nat) (rp : Rep) (m0 : Mat) (tl : List Mat) :
    hstackM dt rp (m0 :: tl) =
      some { rows := m0.rows
             cols := ((m0 :: tl).map Mat.cols).sum
             rep := rp
             dtype := dt
             entry := fun i j => hentry (m0 :: tl) i j } := rfl

/-- C7: whenever `transform` returns a matrix, that matrix has the same
row count and dtype as the concatenated union output, is CSC whenever the
union output is sparse (`hstack(...).tocsc()`), and is a dense array
whenever the union output is dense (`np.hstack`). -/
theorem c7_repr_preserved (marks : List Slc) (X Y : Mat)
    (h : crossTransform marks X = some Y) :
    Y.rows = X.rows ∧ Y.dtype = X.dtype
      ∧ (X.rep.isSparse = true → Y.rep = Rep.csc)
      ∧ (X.rep.isSparse = false → Y.rep = Rep.dense) := by
  unfold crossTransform at h
  rcases hL : (combos2 marks).getLast? with _ | ⟨s1, s2⟩ <;>
    rw [hL] at h <;> simp only [Option.bind] at h
  · exact absurd h (by simp)
  · rcases hn : ((sparseCanon X).colSlice s2).cols with _ | n <;> rw [hn] at h
    · exact absurd h (by simp [hstackM])
    · rw [List.range_succ_eq_map, List.map_cons, hstackM_cons] at h
      have hY := (Option.some.injEq _ _).mp h
      subst hY
      refine ⟨?_, ?_, ?_, ?_⟩
      · simp [bcastMul, Mat.colSlice]
      · simp
      · intro hs; simp [hs]
      · intro hs; simp [hs]

theorem c7_witness :
    Y7.rows = X7.rows ∧ Y7.dtype = X7.dtype
      ∧ (X7.rep.isSparse = true → Y7.rep = Rep.csc)
      ∧ (X7.rep.isSparse = false → Y7.rep = Rep.dense) :=
  c7_repr_preserved marks7 X7 Y7 rfl

/-!
### Helper lemmas: the object model
-/

mutual
theorem PNode.idsOf_shift (k : Nat) :
    ∀ p : PNode, (p.shiftIds k).idsOf = p.idsOf.map (fun i => i + k)
  | .prim i s w => by simp [PNode.shiftIds, PNode.idsOf]
  | .union i ts => by
    simp [PNode.shiftIds, PNode.idsOf, PList.idsOfList_shift k ts]
  | .chain i ts => by
    simp [PNode.shiftIds, PNode.idsOf, PList.idsOfList_shift k ts]
  | .cross i u => by
    simp [PNode.shiftIds, PNode.idsOf, PNode.idsOf_shift k u]

theorem PList.idsOfList_shift (k : Nat) :
    ∀ ts : PList, (ts.shiftIds k).idsOf = ts.idsOf.map (fun i => i + k)
  | .nil => by simp [PList.shiftIds, PList.idsOf]
  | .cons n p rest => by
    simp [PList.shiftIds, PList.idsOf, PNode.idsOf_shift k p,
      PList.idsOfList_shift k rest]
end

mutual
theorem PNode.eraseIds_shift (k : Nat) :
    ∀ p : PNode, (p.shiftIds k).eraseIds = p.eraseIds
  | .prim i s w => by simp [PNode.shiftIds, PNode.eraseIds]
  | .union i ts => by
    simp [PNode.shiftIds, PNode.eraseIds, PList.eraseIdsList_shift k ts]
  | .chain i ts => by
    simp [PNode.shiftIds, PNode.eraseIds, PList.eraseIdsList_shift k ts]
  | .cross i u => by
    simp [PNode.shiftIds, PNode.eraseIds, PNode.eraseIds_shift k u]

theorem PList.eraseIdsList_shift (k : Nat) :
    ∀ ts : PList, (ts.shiftIds k).eraseIds = ts.eraseIds
  | .nil => by simp [PList.shiftIds, PList.eraseIds]
  | .cons n p rest => by
    simp [PList.shiftIds, PList.eraseIds, PNode.eraseIds_shift k p,
      PList.eraseIdsList_shift k rest]
end

mutual
theorem PNode.widthOf_shift (k : Nat) :
    ∀ p : PNode, (p.shiftIds k).widthOf = p.widthOf
  | .prim i s w => rfl
  | .union i ts => by
    simp [PNode.shiftIds, PNode.widthOf, PList.widths_shift k ts]
  | .chain i ts => by
    simp [PNode.shiftIds, PNode.widthOf, PList.widths_shift k ts]
  | .cross i u => by
    cases u with
    | prim j s w => rfl
    | union j ts =>
      simp [PNode.shiftIds, PNode.widthOf, PList.widths_shift k ts]
    | chain j ts => rfl
    | cross j v => rfl

theorem PList.widths_shift (k : Nat) :
    ∀ ts : PList, (ts.shiftIds k).widths = ts.widths
  | .nil => rfl
  | .cons n p rest => by
    simp [PList.shiftIds, PList.widths, PNode.widthOf_shift k p,
      PList.widths_shift k rest]
end

theorem PNode.className_shift (k : Nat) (p : PNode) :
    (p.shiftIds k).className = p.className := by
  cases p <;> rfl

theorem PList.toList_ofList (l : List (String × PNode)) :
    (PList.ofList l).toList = l := by
  induction l with
  | nil => rfl
  | cons x rest ih =>
    obtain ⟨n, p⟩ := x
    simp [PList.ofList, PList.toList, ih]

theorem PList.idsOf_ofList (l : List (String × PNode)) :
    (PList.ofList l).idsOf = (l.map (fun x => x.2.idsOf)).flatten := by
  induction l with
  | nil => rfl
  | cons x rest ih =>
    obtain ⟨n, p⟩ := x
    simp [PList.ofList, PList.idsOf, ih]

theorem autoNames_length (ns : List String) : (autoNames ns).length = ns.length := by
  simp [autoNames]

theorem nameEstimators_snd (es : List PNode) :
    (nameEstimators es).map Prod.snd = es := by
  apply List.map_snd_zip
  simp [autoNames_length]

theorem nameEstimators_fst (es : List PNode) :
    (nameEstimators es).map Prod.fst = autoNames (es.map PNode.className) := by
  apply List.map_fst_zip
  simp [autoNames_length]

theorem unionMembers_mkUnion (i : Nat) (es : List PNode) :
    unionMembers (mkUnion i es) = some es := by
  simp [unionMembers, mkUnion, PList.toList_ofList, nameEstimators_snd]

theorem unionNamed_mkUnion (i : Nat) (es : List PNode) :
    unionNamed (mkUnion i es) = some (nameEstimators es) := by
  simp [unionNamed, mkUnion, PList.toList_ofList]

theorem chainSteps_mkChain (i : Nat) (es : List PNode) :
    chainSteps (mkChain i es) = some es := by
  simp [chainSteps, mkChain, PList.toList_ofList, nameEstimators_snd]

theorem idsOf_mkChain (i : Nat) (es : List PNode) :
    (mkChain i es).idsOf = i :: (es.map PNode.idsOf).flatten := by
  have h : (nameEstimators es).map (fun x => x.2.idsOf) = es.map PNode.idsOf := by
    calc (nameEstimators es).map (fun x => x.2.idsOf)
        = ((nameEstimators es).map Prod.snd).map PNode.idsOf := by
          rw [List.map_map]; rfl
      _ = es.map PNode.idsOf := by rw [nameEstimators_snd]
  simp [mkChain, PNode.idsOf, PList.idsOf_ofList, h]

theorem pyAdd_ctr_ge (a b : PlaytimePipeline) (ctr : Nat) :
    ctr ≤ (pyAdd a b ctr).2 := by
  cases h : a.pipeline <;> simp [pyAdd, h] <;> omega

/-!
### Claim theorems: the operator algebra
-/

/-- C10: `__mul__`'s `isinstance` tests examine the operands themselves —
`PlaytimePipeline` wrappers, never `CrossPolyPipeline` instances — so the
first structural branch always runs and always succeeds:
`a * b = CrossPolyPipeline((a + b).pipeline)` wrapped anew, with the next
fresh id consumed by the cross node.  In particular the branches that
would bind `unioned_feats` to a plain list (failing in
`CrossPolyPipeline.__init__` on the missing `transformer_list`) or leave
it unbound are unreachable. -/
theorem c10_mul_first_branch (a b : PlaytimePipeline) (ctr : Nat) :
    pyMul a b ctr =
        some (⟨.cross (pyAdd a b ctr).2 (pyAdd a b ctr).1.pipeline⟩,
          (pyAdd a b ctr).2 + 1)
      ∧ isCrossPolyInstance a = false ∧ isCrossPolyInstance b = false := by
  refine ⟨?_, rfl, rfl⟩
  simp [pyMul, isCrossPolyInstance]

/-- C4 counterexample: the claim says `*` flattens an existing union from
either side and clones non-union operands, so `a4 * b4` (leaf times
union-of-two) would wrap three freshly cloned members.  The code wraps
the union built by `a4 + b4`, which has TWO members, both placed by
reference — the second still being the union object itself. -/
theorem c4_counterexample :
    crossMembers (pyMul a4 b4 4) = some [a4.pipeline, b4.pipeline]
      ∧ (crossMembers (pyMul a4 b4 4)).map List.length = some 2
      ∧ (crossMembers (pyMul a4 b4 4)).map (fun l => l.map PNode.isUnion)
          = some [false, true]
      ∧ (2 : Nat) ≠ 3 :=
  ⟨rfl, rfl, rfl, by decide⟩

/-- C4 (amended): `a * b` always takes the first structural case — the
`isinstance` tests look at the wrapper objects, which are never
`CrossPolyPipeline` instances — and returns a cross-product node wrapping
the union built by `a + b`: when the left pipeline is a union, its
members are kept by reference and a clone of the right pipeline is
appended as ONE member (a right-side union is not flattened); otherwise
both operand pipelines are placed by reference, uncloned. -/
theorem c4_amended_mul_members (a b : PlaytimePipeline) (ctr : Nat) :
    crossMembers (pyMul a b ctr) =
      some (match a.pipeline with
        | .union _ ts => ts.toList.map (fun x => x.2) ++ [cloneAt ctr b.pipeline]
        | _ => [a.pipeline, b.pipeline]) := by
  cases ha : a.pipeline <;>
    simp [pyMul, isCrossPolyInstance, pyAdd, ha, crossMembers, mkUnion,
      PList.toList_ofList, nameEstimators_snd]

/-- C5 counterexample: the claim says that when the left operand is not a
union, `a + b` builds a union containing CLONES of both pipelines.  The
code's `else` branch (`make_union(self.pipeline, other.pipeline)`) clones
neither: the new union's members are the operand objects themselves
(ids 0 and 1), which differ from what their clones would be. -/
theorem c5_counterexample :
    unionMembers ((pyAdd a5 b5 2).1.pipeline) = some [a5.pipeline, b5.pipeline]
      ∧ cloneAt 2 a5.pipeline ≠ a5.pipeline
      ∧ cloneAt 2 b5.pipeline ≠ b5.pipeline :=
  ⟨rfl, by decide, by decide⟩

/-- C5 (amended): `a + b` always returns a new union node; when `a`'s
pipeline is already a `FeatureUnion`, its members are kept by reference
in their existing order with a clone of `b`'s pipeline appended last;
otherwise the union holds exactly `a`'s and `b`'s pipelines themselves,
uncloned, left first.  Member names are (re)derived by `make_union` in
both cases. -/
theorem c5_amended_add_members (a b : PlaytimePipeline) (ctr : Nat) :
    unionNamed ((pyAdd a b ctr).1.pipeline) =
      some (nameEstimators (match a.pipeline with
        | .union _ ts => ts.toList.map (fun x => x.2) ++ [cloneAt ctr b.pipeline]
        | _ => [a.pipeline, b.pipeline])) := by
  cases ha : a.pipeline <;> simp [pyAdd, ha, unionNamed_mkUnion]

/-- C6 counterexample: the claim says the operands' wrapped pipelines are
cloned before being placed into the new node, so that fitting a
composite never mutates an operand.  For `a6 + b6` the new union holds
the very object of `a6.pipeline` (id 0): fitting the composite fits it
in place, mutating the operand. -/
theorem c6_counterexample :
    0 ∈ fittedIds ((pyAdd a6 b6 2).1.pipeline)
      ∧ PNode.idsOf a6.pipeline = [0] := by decide

/-- C6 (amended): `+` (non-union left) and `*` place operand pipelines by
reference, so fitting such a composite mutates the originals; but `|`
clones its left operand, so in the claim's own example `(A + B) | est`
the fitted composite contains no object of `A` or `B`: both remain
unfitted after fitting it (while `est`, passed by reference, does acquire
fitted state). -/
theorem c6_amended_or_clone_protects (a b : PlaytimePipeline) (est : PNode)
    (ctr : Nat) (ha : idsBelow a.pipeline ctr) (hb : idsBelow b.pipeline ctr)
    (hea : ∀ i ∈ a.pipeline.idsOf, i ∉ est.idsOf)
    (heb : ∀ i ∈ b.pipeline.idsOf, i ∉ est.idsOf) :
    (∀ i ∈ a.pipeline.idsOf,
        i ∉ fittedIds ((pyOr (pyAdd a b ctr).1 est (pyAdd a b ctr).2).1.pipeline))
      ∧ (∀ i ∈ b.pipeline.idsOf,
        i ∉ fittedIds ((pyOr (pyAdd a b ctr).1 est (pyAdd a b ctr).2).1.pipeline)) := by
  have hc1 : ctr ≤ (pyAdd a b ctr).2 := pyAdd_ctr_ge a b ctr
  have key : ∀ i, i < ctr → i ∉ est.idsOf →
      i ∉ fittedIds ((pyOr (pyAdd a b ctr).1 est (pyAdd a b ctr).2).1.pipeline) := by
    intro i hilt hiest hmem
    unfold pyOr fittedIds at hmem
    rw [idsOf_mkChain] at hmem
    simp only [List.map_cons, List.map_nil, List.flatten, List.mem_cons,
      List.mem_append, List.append_nil, cloneAt, PNode.idsOf_shift,
      List.mem_map, List.not_mem_nil, or_false] at hmem
    rcases hmem with h1 | h2 | h3
    · omega
    · obtain ⟨j, _, hj⟩ := h2; omega
    · exact hiest h3
  exact ⟨fun i hi => key i (ha i hi) (hea i hi),
    fun i hi => key i (hb i hi) (heb i hi)⟩

theorem c6_witness :
    (∀ i ∈ a6.pipeline.idsOf,
        i ∉ fittedIds ((pyOr (pyAdd a6 b6 3).1 est6 (pyAdd a6 b6 3).2).1.pipeline))
      ∧ (∀ i ∈ b6.pipeline.idsOf,
        i ∉ fittedIds ((pyOr (pyAdd a6 b6 3).1 est6 (pyAdd a6 b6 3).2).1.pipeline)) :=
  c6_amended_or_clone_protects a6 b6 est6 3 (by decide) (by decide)
    (by decide) (by decide)

/-- C8: `a | other` wraps a fresh two-step `Pipeline` whose first step is
`clone(a.pipeline)` — the same estimator structure under fresh object
ids — and whose second step is `other` ITSELF, by reference (the
intentional asymmetry that lets a terminal estimator be fitted in
place). -/
theorem c8_or_chain_spec (a : PlaytimePipeline) (other : PNode) (ctr : Nat) :
    chainSteps ((pyOr a other ctr).1.pipeline) = some [cloneAt ctr a.pipeline, other]
      ∧ (cloneAt ctr a.pipeline).eraseIds = a.pipeline.eraseIds
      ∧ (cloneAt ctr a.pipeline).idsOf = a.pipeline.idsOf.map (fun i => i + ctr) :=
  ⟨by simp [pyOr, chainSteps_mkChain],
    PNode.eraseIds_shift ctr a.pipeline,
    PNode.idsOf_shift ctr a.pipeline⟩

theorem splitLayout_mkUnion (i : Nat) (es : List PNode) :
    splitLayout (mkUnion i es) = some (fitMarks (layoutKW es) 0) := by
  simp [splitLayout, mkUnion, PList.toList_ofList, layoutKW]

theorem zip_map_snd_pair (l : List α) (es : List β) (f : β → γ) :
    (l.zip es).map (fun x => (x.1, f x.2)) = l.zip (es.map f) := by
  induction l generalizing es with
  | nil => simp
  | cons x xs ih =>
    cases es with
    | nil => simp
    | cons e es' => simp [ih]

theorem layoutKW_congr (es es' : List PNode)
    (hc : es.map PNode.className = es'.map PNode.className)
    (hw : es.map PNode.widthOf = es'.map PNode.widthOf) :
    layoutKW es = layoutKW es' := by
  unfold layoutKW nameEstimators
  rw [zip_map_snd_pair, zip_map_snd_pair, hc, hw]

/-- C9: `(a + b) + c` over single (non-union) transformers yields, at
fit time, the same split-mark layout — names, order, widths, total — as
the union `make_union(a, b, c)` built directly from the three-element
list: the inner `+` makes a two-member union, the outer `+` flattens it
and appends a clone of `c`, and cloning changes neither class names
(hence derived names) nor output widths. -/
theorem c9_union_layout_assoc (pa pb pc : PNode) (ctr : Nat)
    (ha : pa.isUnion = false) :
    splitLayout ((pyAdd (pyAdd ⟨pa⟩ ⟨pb⟩ ctr).1 ⟨pc⟩
        (pyAdd ⟨pa⟩ ⟨pb⟩ ctr).2).1.pipeline)
      = splitLayout (mkUnion 0 [pa, pb, pc]) := by
  have h1 : pyAdd ⟨pa⟩ ⟨pb⟩ ctr = (⟨mkUnion ctr [pa, pb]⟩, ctr + 1) := by
    cases hp : pa <;> simp [pyAdd, hp] <;> simp [hp, PNode.isUnion] at ha
  have h2 : pyAdd ⟨mkUnion ctr [pa, pb]⟩ ⟨pc⟩ (ctr + 1)
      = (⟨mkUnion (2 * (ctr + 1)) ([pa, pb] ++ [cloneAt (ctr + 1) pc])⟩,
          2 * (ctr + 1) + 1) := by
    simp [pyAdd, mkUnion, PList.toList_ofList, nameEstimators_snd]
  rw [h1]
  simp only []
  rw [h2, splitLayout_mkUnion, splitLayout_mkUnion]
  have hc : ([pa, pb] ++ [cloneAt (ctr + 1) pc]).map PNode.className
      = [pa, pb, pc].map PNode.className := by
    simp [cloneAt, PNode.className_shift]
  have hw : ([pa, pb] ++ [cloneAt (ctr + 1) pc]).map PNode.widthOf
      = [pa, pb, pc].map PNode.widthOf := by
    simp [cloneAt, PNode.widthOf_shift]
  rw [layoutKW_congr _ _ hc hw]

theorem c9_witness :
    pa9.isUnion = false
      ∧ splitLayout ((pyAdd (pyAdd ⟨pa9⟩ ⟨pb9⟩ 3).1 ⟨pc9⟩
          (pyAdd ⟨pa9⟩ ⟨pb9⟩ 3).2).1.pipeline)
        = splitLayout (mkUnion 0 [pa9, pb9, pc9]) :=
  ⟨rfl, c9_union_layout_assoc pa9 pb9 pc9 3 rfl⟩

end Playtime

